import Mathlib

/-!
Verification of the userscan scanner pipeline against its specification.

The Rust sources are shallowly embedded: file contents are `List Char`
(one element per byte, all fixture data is ASCII), machine counters are
`Nat`/`Int`, fallible operations return `Option`/`Except`, and external
collaborators (the ZIP parser, the LZO and MessagePack codecs, the
filesystem) appear as explicit parameters or small inductive outcome
types. Each definition is translated from the function of the same name
in the source tree.
-/

/- ### Scanner (src/scan.rs) -/

/-- The byte string of the literal `/nix/store/` (`STORE` in main.rs and
the fixed part of `STORE_RE` in scan.rs). -/
def storeLit : List Char := ['/', 'n', 'i', 'x', '/', 's', 't', 'o', 'r', 'e', '/']

/-- Character class `[0-9a-z]` of the hash part of `STORE_RE`. -/
def isHashChar (c : Char) : Bool := c.isDigit || c.isLower

/-- Character class `[0-9a-zA-Z+._?=-]` of the name part of `STORE_RE`. -/
def isNameChar (c : Char) : Bool :=
  c.isAlphanum || c == '+' || c == '.' || c == '_' || c == '?' || c == '=' || c == '-'

/-- One anchored match attempt of `STORE_RE` at the head of `l`:
the literal `/nix/store/`, exactly 32 hash characters, a dash, and a
maximal (greedy) nonempty run of name characters. Returns the captured
group 1 (`hash-name`) and the remainder of the input after the match. -/
def matchAt (l : List Char) : Option (List Char × List Char) :=
  if l.take 11 = storeLit then
    let r := l.drop 11
    let h := r.take 32
    if h.length = 32 ∧ h.all isHashChar then
      match r.drop 32 with
      | '-' :: r2 =>
        let nm := r2.takeWhile isNameChar
        if nm.isEmpty then none
        else some (h ++ '-' :: nm, r2.dropWhile isNameChar)
      | _ => none
    else none
  else none

/-- `STORE_RE.captures_iter`: leftmost, non-overlapping matches, each
search resuming after the previous match. The fuel argument starts at
the buffer length; every step consumes at least one element, so the
fuel never runs out before the buffer does. -/
def scanRefsAux : Nat → List Char → List (List Char)
  | 0, _ => []
  | Nat.succ fuel, l =>
    match matchAt l with
    | some (cap, rest) => cap :: scanRefsAux fuel rest
    | none =>
      match l with
      | [] => []
      | _ :: t => scanRefsAux fuel t

/-- All group-1 captures of `STORE_RE` over a buffer. -/
def scanRefs (l : List Char) : List (List Char) := scanRefsAux l.length l

/-- `twoway::find_bytes(buf, b"/nix/store/").is_some()`: does the
literal occur anywhere in the buffer? -/
def hasStoreLit : List Char → Bool
  | [] => false
  | c :: t => ((c :: t).take 11 == storeLit) || hasStoreLit t

/-- `ScanResult` of scan.rs, minus the metadata field: the mmap'ed
buffer already determines the file size (`meta.len() = buf.length`). -/
structure ScanResult where
  refs : List (List Char)
  bytes_scanned : Nat
deriving Repr, DecidableEq

/-- `scan.rs::scan_regular_quickcheck`. `buf` is the read-only mmap of
the whole file, so `meta.len()` is `buf.length`. -/
def scan_regular_quickcheck (buf : List Char) (quickcheck : Nat) : ScanResult :=
  if 0 < quickcheck ∧ quickcheck < buf.length then
    if hasStoreLit (buf.take quickcheck) then
      { refs := scanRefs buf, bytes_scanned := buf.length }
    else
      { refs := [], bytes_scanned := quickcheck }
  else
    { refs := scanRefs buf, bytes_scanned := buf.length }

/-- `MIN_STOREREF_LEN` of scan.rs. -/
def MIN_STOREREF_LEN : Nat := 45

/-- `scan.rs::scan_regular`. -/
def scan_regular (buf : List Char) (quickcheck : Nat) : ScanResult :=
  if buf.length < MIN_STOREREF_LEN then
    { refs := [], bytes_scanned := buf.length }
  else
    scan_regular_quickcheck buf quickcheck

/-- Outcome of `ZipArchive::new` (external zip crate): either the list
of the members' uncompressed contents, or one of the error variants
`scan.rs::scan_zip_archive` distinguishes. -/
inductive ZipOpen where
  | archive (members : List (List Char))
  | invalidArchive
  | unsupportedArchive
  | otherError
deriving Repr, DecidableEq

/-- Scan errors surfaced by the scanner model. -/
inductive ScanErr where
  | zipError
deriving Repr, DecidableEq

/-- The member loop of `scan_zip_archive`: `read_to_end` appends each
member to the same `buf` without clearing it, and the whole accumulated
buffer is re-scanned after every member. -/
def zipMemberRefs : List (List Char) → List Char → List (List Char)
  | [], _ => []
  | m :: rest, acc =>
    let acc2 := acc ++ m
    scanRefs acc2 ++ zipMemberRefs rest acc2

/-- `scan.rs::scan_zip_archive`: on `InvalidArchive` or
`UnsupportedArchive` it warns and re-scans the file as plain data via
`scan_regular_quickcheck(dent, meta, 0)`; any other `ZipArchive::new`
error propagates. -/
def scan_zip_archive (buf : List Char) (z : ZipOpen) : Except ScanErr ScanResult :=
  match z with
  | .archive members =>
      .ok { refs := zipMemberRefs members [], bytes_scanned := buf.length }
  | .invalidArchive => .ok (scan_regular_quickcheck buf 0)
  | .unsupportedArchive => .ok (scan_regular_quickcheck buf 0)
  | .otherError => .error .zipError

/-- Rust `Vec::dedup`: drop consecutive repeated elements, keeping the
first of each run. -/
def dedupAdj [DecidableEq α] : List α → List α
  | [] => []
  | a :: t =>
    match t with
    | [] => [a]
    | b :: t2 => if a = b then dedupAdj (b :: t2) else a :: dedupAdj (b :: t2)

/-- The post-processing step of `Scanner::find_paths`:
`r.refs.sort(); r.refs.dedup()`. `PathBuf` ordering on Unix is
bytewise lexicographic, which is the `List Char` lexicographic order. -/
def find_paths_refs (refs : List (List Char)) : List (List Char) :=
  dedupAdj (List.insertionSort (· ≤ ·) refs)

/-- `Scanner::find_paths` applied to a ZIP-globbed entry: the result of
`scan_zip_archive` with the refs sorted and deduplicated. -/
def find_paths_zip (buf : List Char) (z : ZipOpen) : Except ScanErr ScanResult :=
  (scan_zip_archive buf z).map fun s => { s with refs := find_paths_refs s.refs }

example : scanRefs (List.replicate 60 'a') = [] := by decide

example :
    scanRefs (storeLit ++ (List.replicate 32 'q') ++ ['-', 'g', 'c', '!'])
      = [(List.replicate 32 'q') ++ ['-', 'g', 'c']] := by decide

example : scan_regular (List.replicate 50 'x') 3 = { refs := [], bytes_scanned := 3 } := by decide

/- ### Cache lines and the persistent cache map (src/cachemap.rs) -/

/-- `cachemap.rs::CacheLine`: `ctime : i64`, `ctime_nsec : u8` (kept as
a `Nat` below 256 by the `as u8` truncation at the call sites),
`refs`, and the runtime-only `#[serde(skip)]` flag `used`. -/
structure CacheLine where
  ctime : Int
  ctime_nsec : Nat
  refs : List (List Char)
  used : Bool
deriving Repr, DecidableEq

/-- `CacheLine::new` (`used` starts out true). -/
def CacheLine.new (ctime : Int) (ctime_nsec : Nat) (refs : List (List Char)) : CacheLine :=
  { ctime := ctime, ctime_nsec := ctime_nsec, refs := refs, used := true }

/-- The serialized projection of a `CacheLine`: exactly the fields that
survive `rmp_serde` encoding, i.e. everything except `used`. -/
structure PersistedLine where
  ctime : Int
  ctime_nsec : Nat
  refs : List (List Char)
deriving Repr, DecidableEq

/-- What `rmp_serde` serializes for a cache line. -/
def persistLine (c : CacheLine) : PersistedLine :=
  { ctime := c.ctime, ctime_nsec := c.ctime_nsec, refs := c.refs }

/-- What `rmp_serde` deserialization rebuilds: the persisted fields,
with the skipped `used` flag at its `Default` value `false`. -/
def reviveLine (p : PersistedLine) : CacheLine :=
  { ctime := p.ctime, ctime_nsec := p.ctime_nsec, refs := p.refs, used := false }

/-- The `FnvHashMap<u64, CacheLine>` inside `CacheMap`, modelled as an
association list (key order is irrelevant to every claim). -/
abbrev CacheMap := List (Nat × CacheLine)

/-- The external codecs used by `CacheMap::save`/`load`: `rmp_serde`
encode/decode of the persisted map, and `minilzo` compress, plus
decompress with an explicit output-size bound (its second argument). -/
structure Codec where
  enc : List (Nat × PersistedLine) → List Nat
  dec : List Nat → Option (List (Nat × PersistedLine))
  comp : List Nat → List Nat
  decomp : List Nat → Nat → Option (List Nat)

/-- The persisted projection of a whole map. -/
def persistMap (m : CacheMap) : List (Nat × PersistedLine) :=
  m.map fun kv => (kv.1, persistLine kv.2)

/-- `cachemap.rs::CacheMap::save`: seek to the start, truncate, then
write `compress(encode(map))` in one write; the resulting file contents
are exactly that blob. -/
def cachemap_save (cd : Codec) (m : CacheMap) : List Nat :=
  cd.comp (cd.enc (persistMap m))

/-- The codec stage of `cachemap.rs::CacheMap::load` applied to the
file contents: `minilzo::decompress(&compr, compr.len() * 10)` followed
by MessagePack decoding; on any error in either stage it logs a warning
and yields the empty map (`Ok(Self::default())`). -/
def cachemap_load_bytes (cd : Codec) (contents : List Nat) : CacheMap :=
  match cd.decomp contents (contents.length * 10) with
  | none => []
  | some data =>
    match cd.dec data with
    | none => []
    | some pm => pm.map fun kv => (kv.1, reviveLine kv.2)

/-- `cachemap.rs::CacheMap::load` including the initial whole-file
read, whose I/O errors are the only ones that propagate. -/
def cachemap_load (cd : Codec) (readResult : Except Nat (List Nat)) : Except Nat CacheMap :=
  match readResult with
  | .error e => .error e
  | .ok contents => .ok (cachemap_load_bytes cd contents)

/- ### Runtime cache (src/storepaths/cache.rs) -/

/-- `storepaths/cache.rs::Cache`, restricted to the fields `commit`
reads: the map, whether a file is attached (`file: Option<fs::File>`),
and the `dirty` flag. -/
structure Cache where
  map : CacheMap
  hasFile : Bool
  dirty : Bool

/-- `Cache::commit`: without an attached file it does nothing; with one
it compare-and-swaps `dirty` from true to false, returning early if the
cache was already clean, and otherwise retains only the `used` lines
before saving. -/
def Cache.commit (c : Cache) : Cache :=
  if c.hasFile then
    if c.dirty then
      { c with dirty := false, map := c.map.filter fun kv => kv.2.used }
    else c
  else c

/-- `Cache::hit_ratio`, with `f32` modelled as `ℚ` (the values compared
by the claims, 0 and 1, are exact in both). The guard in the source
tests the hit counter: `if h == 0 { 0.0 } else { h / (h + m) }`. -/
def hit_ratio (hits misses : Nat) : ℚ :=
  if hits = 0 then 0 else (hits : ℚ) / ((hits : ℚ) + (misses : ℚ))

/- ### Walk coordinator pipeline (src/walk.rs) -/

/-- The two kinds of `ignore::Error` annotation a `DirEntry` can carry:
`is_partial() == true` (recoverable) or not (fatal). -/
inductive ErrAnn where
  | recoverable
  | fatal
deriving Repr, DecidableEq

/-- The fields of a `StorePaths` value that `scan_entry` looks at.
`meta` is the device id of the entry's metadata, `none` when the
`metadata()` call fails. -/
structure SPm where
  refs : List (List Char)
  errAnn : Option ErrAnn
  meta : Option Nat
  bytes_scanned : Nat
deriving Repr, DecidableEq

/-- `storepaths::Lookup`, with the `Miss` arm carrying the outcome of
the `Scanner::find_paths` call that `scan_entry` performs on a miss
(`none` models a scanner error). -/
inductive LookupRes where
  | dir (sp : SPm)
  | hit (sp : SPm)
  | miss (scanned : Option SPm)
deriving Repr, DecidableEq

/-- `ignore::WalkState`. -/
inductive WalkSt where
  | cont
  | skip
  | quit
deriving Repr, DecidableEq

/-- `statistics.rs::StatsMsg`. -/
inductive StatsMsg where
  | softError
  | scanMsg (bytes : Nat)
deriving Repr, DecidableEq

/-- The error exits of `scan_entry`. -/
inductive PipeErr where
  | scanFail
  | fatalAnn
  | noMetadata
  | cacheFull
deriving Repr, DecidableEq

/-- The observable side effects of one `scan_entry` call: whether
`cache.insert` ran, the sends on the GC channel, and the sends on the
statistics channel. -/
structure Effects where
  inserted : Bool
  gcSent : List SPm
  stats : List StatsMsg
deriving Repr, DecidableEq

/-- No side effects. -/
def noEffects : Effects := { inserted := false, gcSent := [], stats := [] }

/-- Step 1 of `scan_entry`: obtain a `StorePaths` from the cache lookup
or, on a miss, from `scanner.find_paths` (whose error propagates). -/
def lookup_sp : LookupRes → Except PipeErr SPm
  | .dir sp => .ok sp
  | .hit sp => .ok sp
  | .miss (some sp) => .ok sp
  | .miss none => .error .scanFail

/-- `walk.rs::ProcessingContext::scan_entry`. `insertOk` is false when
the `cache.insert` call fails (`CacheFull`, contextualized as
`WalkAbort`). -/
def scan_entry (startdev : Nat) (insertOk : Bool) (lk : LookupRes) :
    Except PipeErr WalkSt × Effects :=
  match lookup_sp lk with
  | .error e => (.error e, noEffects)
  | .ok sp =>
    match sp.errAnn with
    | some .fatal => (.error .fatalAnn, noEffects)
    | ann =>
      let stats0 : List StatsMsg :=
        if ann = some ErrAnn.recoverable then [.softError] else []
      match sp.meta with
      | none => (.error .noMetadata, { inserted := false, gcSent := [], stats := stats0 })
      | some dev =>
        if dev ≠ startdev then
          (.ok .skip, { inserted := false, gcSent := [], stats := stats0 })
        else if insertOk = false then
          (.error .cacheFull, { inserted := false, gcSent := [], stats := stats0 })
        else
          let stats1 := stats0 ++ [StatsMsg.scanMsg sp.bytes_scanned]
          if sp.refs.isEmpty then
            (.ok .cont, { inserted := true, gcSent := [], stats := stats1 })
          else
            (.ok .cont, { inserted := true, gcSent := [sp], stats := stats1 })

/- ### GC-root registry (src/registry.rs) -/

/-- `registry.rs::extract_hash`: `&path.as_os_str().as_bytes()[..32]`.
The byte-slice index panics when the ref is shorter than 32 bytes;
`none` models that panic. -/
def extract_hash (p : List Char) : Option (List Char) :=
  if 32 ≤ p.length then some (p.take 32) else none

/-- The registry's view of the filesystem: the partial map sending a
symlink path to its target, together with the `seen` set of
`RegistryWorker`. Directory creation has no observable effect on this
view, and the idealized link syscalls always succeed. -/
structure RState where
  fs : List Char → Option (List Char)
  seen : List (List Char)

/-- Overwrite one entry of the symlink map. -/
def fsSet (fs : List Char → Option (List Char)) (k v : List Char) :
    List Char → Option (List Char) :=
  fun q => if q = k then some v else fs q

/-- Remove one entry of the symlink map (`fs::remove_file`). -/
def fsRemove (fs : List Char → Option (List Char)) (k : List Char) :
    List Char → Option (List Char) :=
  fun q => if q = k then none else fs q

/-- `RegistryWorker::create_link`: `create_dir_all` (no effect on the
symlink map), `symlink(target, linkname)`, record `linkname` in `seen`,
return 1. -/
def create_link (st : RState) (linkname target : List Char) : Nat × RState :=
  (1, { fs := fsSet st.fs linkname target, seen := linkname :: st.seen })

/-- `RegistryWorker::link`: derive the link name `dir.join(hash)` from
the first 32 bytes of the ref, skip if already seen this run, otherwise
reconcile against the existing symlink (keep if it already points at
`/nix/store/<ref>`, replace it if it differs, create it if absent). -/
def link (st : RState) (dir target : List Char) : Option (Nat × RState) :=
  match extract_hash target with
  | none => none
  | some h =>
    if dir ++ '/' :: h ∈ st.seen then some (0, st)
    else
      match st.fs (dir ++ '/' :: h) with
      | some p =>
        if p = storeLit ++ target then
          some (0, { st with seen := (dir ++ '/' :: h) :: st.seen })
        else
          some (create_link { st with fs := fsRemove st.fs (dir ++ '/' :: h) }
            (dir ++ '/' :: h) (storeLit ++ target))
      | none => some (create_link st (dir ++ '/' :: h) (storeLit ++ target))

/-- `RegistryWorker::register`: `sp.iter_refs().map(|p| link(dir, p)).sum()`,
which threads the worker state left to right and stops at the first
failure, summing the created-link counts. -/
def register (st : RState) (dir : List Char) : List (List Char) → Option (Nat × RState)
  | [] => some (0, st)
  | t :: ts =>
    (link st dir t).bind fun p =>
      (register p.2 dir ts).map fun q => (p.1 + q.1, q.2)

/- ### C9: hit_ratio at a zero miss counter -/

/-- C9 counterexample: the claim says `hit_ratio` returns 0.0 whenever
the miss counter is zero, but at one hit and zero misses the source's
guard (`hits == 0`) is not taken and the ratio is 1/(1+0) = 1. -/
theorem hit_ratio_one_hit_zero_misses : hit_ratio 1 0 = 1 ∧ hit_ratio 1 0 ≠ 0 := by
  constructor <;> norm_num [hit_ratio]

/-- C9 amended: `hit_ratio` returns 0.0 exactly when the hit counter is
zero; with zero misses and at least one hit it returns 1.0. -/
theorem hit_ratio_zero_hits (hits misses : Nat) :
    (hits = 0 → hit_ratio hits misses = 0)
    ∧ (misses = 0 → 0 < hits → hit_ratio hits misses = 1) := by
  constructor
  · intro h
    simp [hit_ratio, h]
  · intro hm hh
    have hne : (hits : ℚ) ≠ 0 := by exact_mod_cast Nat.pos_iff_ne_zero.mp hh
    simp [hit_ratio, Nat.pos_iff_ne_zero.mp hh, hm, div_self hne]

/-- C9 amended, instantiated: zero hits against five misses give ratio
0, and two hits against zero misses give ratio 1. -/
theorem hit_ratio_zero_hits_witness : hit_ratio 0 5 = 0 ∧ hit_ratio 2 0 = 1 :=
  ⟨(hit_ratio_zero_hits 0 5).1 rfl, (hit_ratio_zero_hits 2 0).2 rfl (by norm_num)⟩

/- ### C2: eviction of unused cache lines on commit -/

/-- A cache state as `Cache::open` leaves it after loading a non-empty
file (`dirty = false`, every loaded line `used = false`) when no insert
happened before `commit`. -/
def cacheClean : Cache :=
  { map := [(1, { ctime := 0, ctime_nsec := 0, refs := [], used := false })],
    hasFile := true, dirty := false }

/-- C2 counterexample: a cache with an attached file on which `commit`
returns successfully while a line with `used = false` survives, because
the compare-and-swap on `dirty` returns early without the retain pass. -/
theorem commit_keeps_unused_line_when_clean :
    cacheClean.hasFile = true
    ∧ ¬ (∀ kv ∈ (Cache.commit cacheClean).map, kv.2.used = true) := by
  constructor
  · rfl
  · intro h
    have := h (1, { ctime := 0, ctime_nsec := 0, refs := [], used := false }) (by
      simp [Cache.commit, cacheClean])
    simp at this

/-- C2 amended: when the cache has an attached file and the dirty flag
is set at commit time, every cache line remaining after `commit` has
`used = true`; a clean cache returns early and may keep unused lines. -/
theorem commit_evicts_unused_when_dirty (c : Cache)
    (hf : c.hasFile = true) (hd : c.dirty = true) :
    ∀ kv ∈ (Cache.commit c).map, kv.2.used = true := by
  intro kv hkv
  simp only [Cache.commit, hf, hd, if_true] at hkv
  exact (List.mem_filter.mp hkv).2

/-- A dirty cache holding one used and one unused line. -/
def cacheDirty : Cache :=
  { map := [(1, { ctime := 0, ctime_nsec := 0, refs := [], used := false }),
            (2, { ctime := 7, ctime_nsec := 1, refs := [], used := true })],
    hasFile := true, dirty := true }

/-- C2 amended, instantiated at a concrete dirty cache: the line that
survives its commit is a used one. -/
theorem commit_evicts_unused_when_dirty_witness :
    ({ ctime := 7, ctime_nsec := 1, refs := [], used := true } : CacheLine).used = true :=
  commit_evicts_unused_when_dirty cacheDirty rfl rfl
    (2, { ctime := 7, ctime_nsec := 1, refs := [], used := true }) (by decide)

/- ### C7: corrupt cache files never abort the load -/

/-- C7: if LZO decompression (with the `compr.len() * 10` output bound
the code passes) or MessagePack decoding fails on the file contents,
`CacheMap::load` returns `Ok` with the empty map; only the initial
read's I/O error propagates. -/
theorem cachemap_load_corrupt_gives_empty (cd : Codec) (contents : List Nat) (e : Nat)
    (hfail : cd.decomp contents (contents.length * 10) = none
      ∨ ∃ d, cd.decomp contents (contents.length * 10) = some d ∧ cd.dec d = none) :
    cachemap_load cd (.ok contents) = .ok ([] : CacheMap)
    ∧ cachemap_load cd (.error e) = .error e := by
  constructor
  · rcases hfail with h | ⟨d, hd, hdec⟩
    · simp [cachemap_load, cachemap_load_bytes, h]
    · simp [cachemap_load, cachemap_load_bytes, hd, hdec]
  · rfl

/-- A codec whose decompression always fails, as with a truncated LZO
stream. -/
def failingCodec : Codec :=
  { enc := fun _ => [], dec := fun _ => none, comp := fun _ => [],
    decomp := fun _ _ => none }

/-- C7 instantiated: loading the corrupt contents [1, 2, 3] yields the
empty map, and a read error 7 propagates. -/
theorem cachemap_load_corrupt_witness :
    cachemap_load failingCodec (.ok [1, 2, 3]) = .ok ([] : CacheMap)
    ∧ cachemap_load failingCodec (.error 7) = .error 7 :=
  cachemap_load_corrupt_gives_empty failingCodec [1, 2, 3] 7 (Or.inl rfl)

/- ### C6: save/load round trip -/

/-- C6: when the external codecs invert on this map's blob (LZO
decompression recovering the encoded bytes within the ten-fold output
bound, MessagePack decoding recovering the persisted map), `save`
followed by `load` is the identity on the key set and the persisted
fields, and every loaded line has `used = false`. -/
theorem cachemap_save_load_roundtrip (cd : Codec) (m : CacheMap)
    (hdecomp : cd.decomp (cachemap_save cd m) ((cachemap_save cd m).length * 10)
      = some (cd.enc (persistMap m)))
    (hdec : cd.dec (cd.enc (persistMap m)) = some (persistMap m)) :
    cachemap_load_bytes cd (cachemap_save cd m)
      = m.map fun kv => (kv.1, { kv.2 with used := false }) := by
  unfold cachemap_load_bytes
  simp only [hdecomp, hdec]
  unfold persistMap
  rw [List.map_map]
  rfl

/-- A concrete one-line cache map. -/
def mapW : CacheMap := [(3, { ctime := 5, ctime_nsec := 6, refs := [['a']], used := true })]

/-- A codec that inverts on `mapW`'s blob. -/
def codecW : Codec :=
  { enc := fun _ => [9], dec := fun _ => some (persistMap mapW),
    comp := fun b => b, decomp := fun b _ => some b }

/-- C6 instantiated: saving and loading `mapW` through `codecW` yields
the same single line with `used` reset to false. -/
theorem cachemap_save_load_roundtrip_witness :
    cachemap_load_bytes codecW (cachemap_save codecW mapW)
      = [(3, { ctime := 5, ctime_nsec := 6, refs := [['a']], used := false })] :=
  cachemap_save_load_roundtrip codecW mapW rfl rfl

/- ### C4: quickcheck boundary and cutoff behavior -/

/-- C4: for a regular file of at least `MIN_STOREREF_LEN` bytes scanned
with a positive quickcheck bound: the prefix-only quickcheck runs only
when the size strictly exceeds the bound (at `size = quickcheck` and
below, the full scan applies); when it runs and the store literal is
absent from the first `quickcheck` bytes the result is empty with
`bytes_scanned = quickcheck`; otherwise the full mapping is scanned and
`bytes_scanned = size`. -/
theorem scan_regular_quickcheck_boundary (buf : List Char) (quickcheck : Nat)
    (hsize : MIN_STOREREF_LEN ≤ buf.length) (hqc : 0 < quickcheck) :
    (buf.length ≤ quickcheck →
      scan_regular buf quickcheck = { refs := scanRefs buf, bytes_scanned := buf.length })
    ∧ (quickcheck < buf.length → hasStoreLit (buf.take quickcheck) = false →
      scan_regular buf quickcheck = { refs := [], bytes_scanned := quickcheck })
    ∧ (quickcheck < buf.length → hasStoreLit (buf.take quickcheck) = true →
      scan_regular buf quickcheck = { refs := scanRefs buf, bytes_scanned := buf.length }) := by
  have hmin : ¬ buf.length < MIN_STOREREF_LEN := Nat.not_lt.mpr hsize
  refine ⟨fun hle => ?_, fun hgt habsent => ?_, fun hgt hfound => ?_⟩
  · have : ¬ (0 < quickcheck ∧ quickcheck < buf.length) := by
      intro h
      exact absurd h.2 (Nat.not_lt.mpr hle)
    simp [scan_regular, scan_regular_quickcheck, hmin, this]
  · simp [scan_regular, scan_regular_quickcheck, hmin, hqc, hgt, habsent]
  · simp [scan_regular, scan_regular_quickcheck, hmin, hqc, hgt, hfound]

/-- A 50-byte buffer whose store reference sits past the first 3 bytes:
one padding byte followed by a full store path. -/
def bufW : List Char := 'p' :: (storeLit ++ List.replicate 32 'q' ++ ['-', 'g'])

/-- C4 instantiated on `bufW` (length 46) with quickcheck 3 and
quickcheck 50: the cutoff hides the late reference, the boundary case
scans fully. -/
theorem scan_regular_quickcheck_boundary_witness :
    scan_regular bufW 3 = { refs := [], bytes_scanned := 3 }
    ∧ scan_regular bufW 46 = { refs := scanRefs bufW, bytes_scanned := bufW.length } :=
  ⟨((scan_regular_quickcheck_boundary bufW 3 (by decide) (by decide)).2.1
      (by decide) (by decide)),
   ((scan_regular_quickcheck_boundary bufW 46 (by decide) (by decide)).1 (by decide))⟩

/- ### C1: invalid ZIP archives fall back to a plain scan -/

/-- The plain contents of a file that matches an unzip glob but is not
a valid ZIP archive, mirroring the 200-byte truncated archive of the
walk.rs test `softfail_on_broken_zip_archive`. -/
def brokenZipBuf : List Char := List.replicate 200 'a'

set_option maxRecDepth 4000 in
/-- C1, evaluated at the failing input: when `ZipArchive::new` reports
`InvalidArchive`, `scan_zip_archive` does not fail with a ZIP error; it
re-scans the file as plain regular-file data (with the quickcheck
disabled) and `find_paths` returns an ordinary empty result. This
contradicts the claim, the `UErr::ZIP` variant of errors.rs, and the
soft-error count expected by walk.rs's `softfail_on_broken_zip_archive`
test. -/
theorem scan_zip_archive_invalid_falls_back :
    scan_zip_archive brokenZipBuf ZipOpen.invalidArchive
      = .ok { refs := scanRefs brokenZipBuf, bytes_scanned := 200 }
    ∧ find_paths_zip brokenZipBuf ZipOpen.invalidArchive
      = .ok { refs := [], bytes_scanned := 200 } := by
  have h : scanRefs brokenZipBuf = [] := by decide
  have hl : brokenZipBuf.length = 200 := by simp [brokenZipBuf]
  constructor
  · rfl
  · show Except.map _ _ = _
    simp [scan_zip_archive, scan_regular_quickcheck, h, hl, find_paths_refs,
      List.insertionSort, dedupAdj]
    rfl

/- ### C3: cross-device entries are skipped before insert and send -/

/-- C3: whenever the per-entry pipeline reaches the device check — the
lookup or scan produced a `StorePaths` with no fatal error annotation
and its metadata is available — and the device id differs from
`startdev`, `scan_entry` returns `Skip` and performs neither a cache
insert nor a GC-channel send. -/
theorem scan_entry_skips_foreign_device (startdev : Nat) (insertOk : Bool)
    (lk : LookupRes) (sp : SPm) (dev : Nat)
    (hsp : lookup_sp lk = .ok sp)
    (hann : sp.errAnn ≠ some ErrAnn.fatal)
    (hmeta : sp.meta = some dev)
    (hdev : dev ≠ startdev) :
    (scan_entry startdev insertOk lk).1 = .ok WalkSt.skip
    ∧ (scan_entry startdev insertOk lk).2.inserted = false
    ∧ (scan_entry startdev insertOk lk).2.gcSent = [] := by
  unfold scan_entry
  rw [hsp]
  match h : sp.errAnn with
  | some ErrAnn.fatal => exact absurd h hann
  | some ErrAnn.recoverable => simp [h, hmeta, hdev]
  | none => simp [h, hmeta, hdev]

/-- A cache hit on another device (device id 5, scan root device 1). -/
def spForeign : SPm :=
  { refs := [['r']], errAnn := none, meta := some 5, bytes_scanned := 10 }

/-- C3 instantiated: a hit on device 5 under a scan rooted on device 1
yields `Skip`, no insert, no GC send. -/
theorem scan_entry_skips_foreign_device_witness :
    (scan_entry 1 true (LookupRes.hit spForeign)).1 = .ok WalkSt.skip
    ∧ (scan_entry 1 true (LookupRes.hit spForeign)).2.inserted = false
    ∧ (scan_entry 1 true (LookupRes.hit spForeign)).2.gcSent = [] :=
  scan_entry_skips_foreign_device 1 true (LookupRes.hit spForeign) spForeign 5
    rfl (by decide) rfl (by decide)

/- ### C5: emitted refs are sorted and duplicate-free -/

/-- Unfolding equation of `dedupAdj` on a list of length at least 2. -/
theorem dedupAdj_cons_cons [DecidableEq α] (a b : α) (t : List α) :
    dedupAdj (a :: b :: t) = if a = b then dedupAdj (b :: t) else a :: dedupAdj (b :: t) := rfl

/-- `Vec::dedup` only removes elements. -/
theorem dedupAdj_subset [DecidableEq α] :
    ∀ (l : List α), ∀ x ∈ dedupAdj l, x ∈ l
  | [] => by simp [dedupAdj]
  | [a] => by simp [dedupAdj]
  | a :: b :: t => by
    intro x hx
    rw [dedupAdj_cons_cons] at hx
    by_cases hab : a = b
    · rw [if_pos hab] at hx
      exact List.mem_cons_of_mem a (dedupAdj_subset (b :: t) x hx)
    · rw [if_neg hab] at hx
      rcases List.mem_cons.mp hx with rfl | hx2
      · exact List.mem_cons_self x (b :: t)
      · exact List.mem_cons_of_mem a (dedupAdj_subset (b :: t) x hx2)

/-- On a `≤`-sorted list, removing consecutive duplicates yields a
strictly sorted list. -/
theorem dedupAdj_sorted_lt [DecidableEq α] [LinearOrder α] :
    ∀ (l : List α), l.Sorted (· ≤ ·) → (dedupAdj l).Sorted (· < ·)
  | [] , _ => by simp [dedupAdj]
  | [a], _ => by simp [dedupAdj]
  | a :: b :: t, h => by
    have htail : (b :: t).Sorted (· ≤ ·) := h.of_cons
    have ih := dedupAdj_sorted_lt (b :: t) htail
    rw [dedupAdj_cons_cons]
    by_cases hab : a = b
    · rw [if_pos hab]
      exact ih
    · rw [if_neg hab]
      refine List.sorted_cons.mpr ⟨?_, ih⟩
      intro x hxm
      have hxl : x ∈ b :: t := dedupAdj_subset _ x hxm
      have hax : a ≤ x := (List.sorted_cons.mp h).1 x hxl
      rcases lt_or_eq_of_le hax with hlt | heq
      · exact hlt
      · exfalso
        have hbx : b ≤ x := by
          rcases List.mem_cons.mp hxl with rfl | hxt
          · exact le_refl x
          · exact (List.sorted_cons.mp htail).1 x hxt
        have hab2 : a ≤ b := (List.sorted_cons.mp h).1 b (List.mem_cons_self b t)
        exact hab (le_antisymm hab2 (heq ▸ hbx))

/-- C5: the refs sequence of every StorePaths built by
`Scanner::find_paths` (`sort` followed by `dedup`) is lexicographically
sorted and contains no duplicates. -/
theorem find_paths_refs_sorted_nodup (refs : List (List Char)) :
    (find_paths_refs refs).Sorted (· ≤ ·) ∧ (find_paths_refs refs).Nodup := by
  have hs : (List.insertionSort (· ≤ ·) refs).Sorted (· ≤ ·) :=
    List.sorted_insertionSort (· ≤ ·) refs
  have hlt : (find_paths_refs refs).Sorted (· < ·) := by
    unfold find_paths_refs
    exact dedupAdj_sorted_lt _ hs
  exact ⟨hlt.imp le_of_lt, hlt.nodup⟩

/- ### C8 and C10: registry link bookkeeping -/

/-- Any successful `link` leaves the derived link name in `seen` and
never removes anything from `seen`. -/
theorem link_some_seen (st : RState) (dir target : List Char) (k : Nat) (st1 : RState)
    (h : link st dir target = some (k, st1)) :
    ∃ hsh, extract_hash target = some hsh ∧ (dir ++ '/' :: hsh) ∈ st1.seen
      ∧ ∀ x ∈ st.seen, x ∈ st1.seen := by
  cases hh : extract_hash target with
  | none => simp [link, hh] at h
  | some hsh =>
    refine ⟨hsh, rfl, ?_⟩
    simp only [link, hh] at h
    by_cases hseen : (dir ++ '/' :: hsh) ∈ st.seen
    · rw [if_pos hseen] at h
      injection h with h1
      injection h1 with h2 h3
      subst h3
      exact ⟨hseen, fun x hx => hx⟩
    · rw [if_neg hseen] at h
      cases hfs : st.fs (dir ++ '/' :: hsh) with
      | none =>
        simp only [hfs] at h
        injection h with h1
        injection h1 with h2 h3
        subst h3
        exact ⟨List.mem_cons_self _ _, fun x hx => List.mem_cons_of_mem _ hx⟩
      | some p =>
        simp only [hfs] at h
        by_cases hp : p = storeLit ++ target
        · rw [if_pos hp] at h
          injection h with h1
          injection h1 with h2 h3
          subst h3
          exact ⟨List.mem_cons_self _ _, fun x hx => List.mem_cons_of_mem _ hx⟩
        · rw [if_neg hp] at h
          injection h with h1
          injection h1 with h2 h3
          subst h3
          exact ⟨List.mem_cons_self _ _, fun x hx => List.mem_cons_of_mem _ hx⟩

/-- `link` on an already-seen link name is a no-op returning 0. -/
theorem link_noop (st : RState) (dir target hsh : List Char)
    (hh : extract_hash target = some hsh)
    (hseen : (dir ++ '/' :: hsh) ∈ st.seen) :
    link st dir target = some (0, st) := by
  simp only [link, hh]
  rw [if_pos hseen]

/-- A successful `register` pass never shrinks `seen`. -/
theorem register_seen_mono (refs : List (List Char)) :
    ∀ (st : RState) (dir : List Char) (n : Nat) (st2 : RState),
      register st dir refs = some (n, st2) → ∀ x ∈ st.seen, x ∈ st2.seen := by
  induction refs with
  | nil =>
    intro st dir n st2 h x hx
    simp only [register] at h
    injection h with h1
    injection h1 with h2 h3
    subst h3
    exact hx
  | cons t ts ih =>
    intro st dir n st2 h x hx
    simp only [register] at h
    cases hl : link st dir t with
    | none => rw [hl] at h; simp at h
    | some p =>
      rw [hl] at h
      simp only [Option.some_bind] at h
      cases hr : register p.2 dir ts with
      | none => rw [hr] at h; simp at h
      | some q =>
        rw [hr] at h
        simp only [Option.map_some'] at h
        injection h with h1
        injection h1 with h2 h3
        subst h3
        obtain ⟨hsh, _, _, hmono⟩ := link_some_seen st dir t p.1 p.2 hl
        exact ih p.2 dir q.1 q.2 hr x (hmono x hx)

/-- After a successful `register` pass, every ref's derived link name
is in `seen`. -/
theorem register_refs_seen (refs : List (List Char)) :
    ∀ (st : RState) (dir : List Char) (n : Nat) (st2 : RState),
      register st dir refs = some (n, st2) →
      ∀ t ∈ refs, ∃ hsh, extract_hash t = some hsh ∧ (dir ++ '/' :: hsh) ∈ st2.seen := by
  induction refs with
  | nil =>
    intro st dir n st2 h t ht
    simp at ht
  | cons u ts ih =>
    intro st dir n st2 h t ht
    simp only [register] at h
    cases hl : link st dir u with
    | none => rw [hl] at h; simp at h
    | some p =>
      rw [hl] at h
      simp only [Option.some_bind] at h
      cases hr : register p.2 dir ts with
      | none => rw [hr] at h; simp at h
      | some q =>
        rw [hr] at h
        simp only [Option.map_some'] at h
        injection h with h1
        injection h1 with h2 h3
        subst h3
        rcases List.mem_cons.mp ht with rfl | hts
        · obtain ⟨hsh, hhh, hmem, _⟩ := link_some_seen st dir t p.1 p.2 hl
          exact ⟨hsh, hhh, register_seen_mono ts p.2 dir q.1 q.2 hr _ hmem⟩
        · exact ih p.2 dir q.1 q.2 hr t hts

/-- When every ref's link name is already in `seen`, `register` creates
nothing and leaves the state untouched. -/
theorem register_noop (refs : List (List Char)) :
    ∀ (st : RState) (dir : List Char),
      (∀ t ∈ refs, ∃ hsh, extract_hash t = some hsh ∧ (dir ++ '/' :: hsh) ∈ st.seen) →
      register st dir refs = some (0, st) := by
  induction refs with
  | nil => intro st dir _; rfl
  | cons t ts ih =>
    intro st dir hall
    obtain ⟨hsh, hhh, hmem⟩ := hall t (List.mem_cons_self t ts)
    have hl : link st dir t = some (0, st) := link_noop st dir t hsh hhh hmem
    have hr : register st dir ts = some (0, st) :=
      ih st dir fun u hu => hall u (List.mem_cons_of_mem t hu)
    simp only [register, hl, Option.some_bind, hr, Option.map_some']

/-- C8: `register` is idempotent within one run. If a `register` pass
on a StorePaths' refs succeeds, running it again from the resulting
worker state succeeds with zero newly created links and returns the
state — symlink map and `seen` set — completely unchanged. -/
theorem register_idempotent (st : RState) (dir : List Char) (refs : List (List Char))
    (n : Nat) (st2 : RState) (h : register st dir refs = some (n, st2)) :
    register st2 dir refs = some (0, st2) :=
  register_noop refs st2 dir fun t ht => register_refs_seen refs st dir n st2 h t ht

/-- A ref of at least 32 bytes can always be linked in the idealized
filesystem model. -/
theorem link_isSome_of_long (st : RState) (dir target : List Char)
    (hlen : 32 ≤ target.length) : (link st dir target).isSome = true := by
  simp only [link, extract_hash, if_pos hlen]
  by_cases hseen : (dir ++ '/' :: target.take 32) ∈ st.seen
  · simp [hseen]
  · rw [if_neg hseen]
    cases hfs : st.fs (dir ++ '/' :: target.take 32) with
    | none => simp
    | some p =>
      by_cases hp : p = storeLit ++ target <;> simp [hp]

/-- C10: `extract_hash` slices the first 32 bytes of a ref without a
length check, so `register` hits the byte-slice panic (`none` in this
model) exactly on StorePaths containing a ref shorter than 32 bytes,
and is total when every ref is at least 32 bytes long. -/
theorem register_short_ref_panics (st : RState) (dir : List Char) (refs : List (List Char)) :
    ((∃ t ∈ refs, t.length < 32) → register st dir refs = none)
    ∧ ((∀ t ∈ refs, 32 ≤ t.length) → (register st dir refs).isSome = true) := by
  induction refs generalizing st with
  | nil =>
    refine ⟨?_, fun _ => rfl⟩
    rintro ⟨t, ht, _⟩
    simp at ht
  | cons t ts ih =>
    constructor
    · rintro ⟨x, hx, hxlen⟩
      rcases List.mem_cons.mp hx with rfl | hxts
      · have hnone : link st dir x = none := by
          simp [link, extract_hash, Nat.not_le.mpr hxlen]
        simp only [register, hnone, Option.none_bind]
      · by_cases htlen : t.length < 32
        · have hnone : link st dir t = none := by
            simp [link, extract_hash, Nat.not_le.mpr htlen]
          simp only [register, hnone, Option.none_bind]
        · have hsome := link_isSome_of_long st dir t (Nat.not_lt.mp htlen)
          obtain ⟨p, hp⟩ := Option.isSome_iff_exists.mp hsome
          have hnone := (ih p.2).1 ⟨x, hxts, hxlen⟩
          simp only [register, hp, Option.some_bind, hnone, Option.map_none']
    · intro hall
      have hsome := link_isSome_of_long st dir t (hall t (List.mem_cons_self t ts))
      obtain ⟨p, hp⟩ := Option.isSome_iff_exists.mp hsome
      have hts := (ih p.2).2 fun x hx => hall x (List.mem_cons_of_mem t hx)
      obtain ⟨q, hq⟩ := Option.isSome_iff_exists.mp hts
      simp only [register, hp, Option.some_bind, hq, Option.map_some', Option.isSome_some]

/-- The registry worker state at the start of a run: no symlinks under
the prefix, empty `seen` set. -/
def stW0 : RState := { fs := fun _ => none, seen := [] }

/-- A concrete link directory. -/
def dirW : List Char := ['d']

/-- A concrete 34-byte store ref: 32 hash bytes, a dash, a name. -/
def refW : List Char := List.replicate 32 'a' ++ ['-', 'x']

/-- The state after registering `refW` from `stW0`. -/
def stW1 : RState :=
  { fs := fsSet (fun _ => none) (dirW ++ '/' :: refW.take 32) (storeLit ++ refW),
    seen := [dirW ++ '/' :: refW.take 32] }

/-- Evaluation of the first `register` pass on the concrete input. -/
theorem registerW_eval : register stW0 dirW [refW] = some (1, stW1) := rfl

/-- C8 instantiated: registering `refW` a second time from the state
the first pass produced creates zero links and changes nothing. -/
theorem register_idempotent_witness : register stW1 dirW [refW] = some (0, stW1) :=
  register_idempotent stW0 dirW [refW] 1 stW1 registerW_eval

/-- C10 instantiated: a 1-byte ref makes `register` panic, while the
34-byte `refW` registers successfully. -/
theorem register_short_ref_panics_witness :
    register stW0 dirW [['a']] = none ∧ (register stW0 dirW [refW]).isSome = true :=
  ⟨(register_short_ref_panics stW0 dirW [['a']]).1 ⟨['a'], List.mem_singleton_self _, by norm_num⟩,
   (register_short_ref_panics stW0 dirW [refW]).2 (by
    intro t ht
    rw [List.mem_singleton] at ht
    subst ht
    decide)⟩

